import Mathlib

/-!
Verification of the spreadsheet-backed record store of `server.js`.

The store keeps each entity in one sheet: a list of rows, where row 0 is the
header row (column names) and the remaining rows are data rows.  Cells are
loosely typed (string, number, boolean, or absent), so cells are modelled by
the inductive type `Value`.  JavaScript's `String(x)` conversion is modelled
by `toStr`, and `parseInt(x) || 0` by `parseIntOr0`.  Machine floats only
ever hold small integral ids here, so numbers are modelled by `Int`.

The operations embedded from the source:
  * `rowsToObjects`    (server.js, `rowsToObjects`)
  * `updateRowById`    (server.js, `updateRowById`)
  * `deleteRowById`    (server.js, `deleteRowById`, single-sheet view)
  * `deleteRowByIdSS`  (server.js, `deleteRowById`, whole-spreadsheet view:
                        the `batchUpdate` request carries
                        `sheetIndex: data.indexOf(headers)`, which is always
                        `0` because `headers` is `data[0]`)
  * `findById`         (the `rowsToObjects(...).find(r => String(r.id) === String(id))`
                        pattern used by every GET-by-id endpoint)
  * `generatedId`      (the `length > 0 ? Math.max(...map(parseInt(id) || 0)) + 1 : 1`
                        pattern used by every insert endpoint)
  * `insertRow`        (append of `[newId, ...fields]` performed by the
                        insert endpoints)
-/

namespace NutriStore

/-- A spreadsheet cell as seen by the JavaScript code: a string, a number,
a boolean, or `undefined` (reading past the end of a row array). -/
inductive Value where
  | str (s : String)
  | num (n : Int)
  | boolV (b : Bool)
  | undef
  deriving DecidableEq

/-- Digit character for a single decimal digit. -/
def digitChar (n : Nat) : Char := Char.ofNat (48 + n)

/-- Decimal digit list of a natural number, most significant first, driven by
structural fuel so that it reduces definitionally. -/
def natPrintAux : Nat → Nat → List Char
  | 0, _ => []
  | fuel + 1, n =>
    if n < 10 then [digitChar n]
    else natPrintAux fuel (n / 10) ++ [digitChar (n % 10)]

/-- Decimal digit list of a natural number (`String(n)` for `n ≥ 0`). -/
def natPrint (n : Nat) : List Char := natPrintAux (n + 1) n

/-- Character list of JavaScript `String(k)` for an integral number `k`. -/
def intPrint : Int → List Char
  | Int.ofNat n => natPrint n
  | Int.negSucc m => '-' :: natPrint (m + 1)

/-- JavaScript `String(v)`: identity on strings, decimal numerals for
numbers, `"true"`/`"false"` for booleans, `"undefined"` for `undefined`. -/
def toStr : Value → String
  | Value.str s => s
  | Value.num n => String.mk (intPrint n)
  | Value.boolV b => if b then "true" else "false"
  | Value.undef => "undefined"

/-- Decimal digit test (character codes 48–57). -/
def isDigit (c : Char) : Bool := decide (48 ≤ c.toNat ∧ c.toNat ≤ 57)

/-- Value of a decimal digit character. -/
def digitVal (c : Char) : Nat := c.toNat - 48

/-- Whitespace test for the characters `parseInt` skips. -/
def isWs (c : Char) : Bool :=
  decide (c.toNat = 32 ∨ c.toNat = 9 ∨ c.toNat = 10 ∨ c.toNat = 13)

/-- Drop leading whitespace, as `parseInt` does. -/
def skipWs : List Char → List Char
  | [] => []
  | c :: cs => if isWs c then skipWs cs else c :: cs

/-- Accumulate the longest leading run of decimal digits; stop at the first
non-digit, ignoring the remainder, as `parseInt` does. -/
def takeDigitsVal (acc : Nat) : List Char → Nat
  | [] => acc
  | c :: cs => if isDigit c then takeDigitsVal (acc * 10 + digitVal c) cs else acc

/-- Hexadecimal digit test. -/
def isHexDigit (c : Char) : Bool :=
  isDigit c ∨ decide (97 ≤ c.toNat ∧ c.toNat ≤ 102) ∨ decide (65 ≤ c.toNat ∧ c.toNat ≤ 70)

/-- Value of a hexadecimal digit character. -/
def hexVal (c : Char) : Nat :=
  if 48 ≤ c.toNat ∧ c.toNat ≤ 57 then c.toNat - 48
  else if 97 ≤ c.toNat ∧ c.toNat ≤ 102 then c.toNat - 87
  else if 65 ≤ c.toNat ∧ c.toNat ≤ 70 then c.toNat - 55
  else 0

/-- Accumulate the longest leading run of hexadecimal digits. -/
def takeHexVal (acc : Nat) : List Char → Nat
  | [] => acc
  | c :: cs => if isHexDigit c then takeHexVal (acc * 16 + hexVal c) cs else acc

/-- Does the character list start with the `0x`/`0X` prefix that switches
`parseInt` (with no explicit radix) to base 16? -/
def startsHex : List Char → Bool
  | c0 :: c1 :: _ => c0 = '0' ∧ (c1 = 'x' ∨ c1 = 'X')
  | _ => false

/-- Parse an unsigned integer prefix as `parseInt` does after the sign:
`0x`-prefixed hexadecimal, else decimal; `none` when no digit follows. -/
def parseUnsigned (cs : List Char) : Option Nat :=
  if startsHex cs then
    match cs.drop 2 with
    | c :: rest => if isHexDigit c then some (takeHexVal (hexVal c) rest) else none
    | [] => none
  else
    match cs with
    | c :: rest => if isDigit c then some (takeDigitsVal (digitVal c) rest) else none
    | [] => none

/-- Parse an optionally signed integer prefix; `none` models a `NaN` result. -/
def parseSigned : List Char → Option Int
  | [] => none
  | c :: cs =>
    if c = '-' then (parseUnsigned cs).map (fun n => -(n : Int))
    else if c = '+' then (parseUnsigned cs).map (fun n => (n : Int))
    else (parseUnsigned (c :: cs)).map (fun n => (n : Int))

/-- JavaScript `parseInt(s)` (radix argument omitted): skip whitespace,
optional sign, then the longest digit prefix; `none` models `NaN`. -/
def jsParseInt (s : String) : Option Int := parseSigned (skipWs s.data)

/-- The `parseInt(v) || 0` idiom of the id generators: `NaN` (and `0`
itself) collapse to `0`. -/
def parseIntOr0 (v : Value) : Int := (jsParseInt (toStr v)).getD 0

/-- Errors of the record store: the sheet is empty or lacks an `id` column
(`SchemaError`), or no row carries the requested id (`NotFound`).  Remote
storage failures are outside this pure model. -/
inductive StoreError where
  | schemaError
  | notFound
  deriving DecidableEq

/-- One keyed record, in the key order the JavaScript object was built in. -/
abbrev Record := List (String × Value)

/-- Last binding of a key in a record; JavaScript property assignment
overwrites, so the last write wins. -/
def lookupLast? : Record → String → Option Value
  | [], _ => none
  | kv :: rest, k =>
    match lookupLast? rest k with
    | some v => some v
    | none => if kv.1 = k then some kv.2 else none

/-- Property read `obj[k]` on a record: the last binding, else `undefined`. -/
def getField (obj : Record) (k : String) : Value :=
  (lookupLast? obj k).getD Value.undef

/-- `obj[header] = row[index]` for each header cell in order
(server.js `rowsToObjects`, inner loop).  Header cells are coerced to
property keys with `String(...)`; missing cells read as `undefined`. -/
def rowToObject : List Value → List Value → Record
  | [], _ => []
  | h :: hs, row => (toStr h, row.getD 0 Value.undef) :: rowToObject hs row.tail

/-- server.js `rowsToObjects`: first row is the header, the remaining rows
are mapped to records; an empty row set yields `[]` with no error. -/
def rowsToObjects (sheetData : List (List Value)) : List Record :=
  match sheetData with
  | [] => []
  | headers :: rows => rows.map (rowToObject headers)

/-- The `listAll` operation of the record store: read every row and map. -/
def listAll (sheetData : List (List Value)) : List Record :=
  rowsToObjects sheetData

/-- JavaScript `Array.prototype.indexOf` under strict equality: index of the
first cell equal to `target`. -/
def indexOfV (target : Value) : List Value → Option Nat
  | [] => none
  | v :: vs => if v = target then some 0 else (indexOfV target vs).map (· + 1)

/-- `rows.findIndex(row => String(row[idCol]) === idStr)`: first data row
whose id cell string-normalizes to `idStr`. -/
def findIndexMatch (idCol : Nat) (idStr : String) : List (List Value) → Option Nat
  | [] => none
  | r :: rs =>
    if toStr (r.getD idCol Value.undef) = idStr then some 0
    else (findIndexMatch idCol idStr rs).map (· + 1)

/-- JavaScript array assignment `row[i] = v`: overwrite in place, or extend
the array with `undefined` holes up to index `i`. -/
def setAt : List Value → Nat → Value → List Value
  | _ :: tl, 0, v => v :: tl
  | [], 0, v => [v]
  | hd :: tl, n + 1, v => hd :: setAt tl n v
  | [], n + 1, v => Value.undef :: setAt [] n v

/-- The merge loop of `updateRowById`: for each payload key in order, find
the key's column by strict search in the header row and overwrite that
cell; keys absent from the header are skipped. -/
def applyFields (headers : List Value) (row : List Value) : List (String × Value) → List Value
  | [] => row
  | kv :: rest =>
    applyFields headers
      (match indexOfV (Value.str kv.1) headers with
       | some j => setAt row j kv.2
       | none => row) rest

/-- server.js `updateRowById`: fail on an empty sheet or a header without an
`id` column, fail when no data row string-matches the id, otherwise
overwrite the matched row in place with the merged row. -/
def updateRowById (sheetData : List (List Value)) (id : Value)
    (newFields : List (String × Value)) : Except StoreError (List (List Value)) :=
  match sheetData with
  | [] => Except.error StoreError.schemaError
  | headers :: rows =>
    match indexOfV (Value.str "id") headers with
    | none => Except.error StoreError.schemaError
    | some idCol =>
      match findIndexMatch idCol (toStr id) rows with
      | none => Except.error StoreError.notFound
      | some i =>
        Except.ok (headers :: rows.set i (applyFields headers (rows.getD i []) newFields))

/-- Remove the element at an index, shifting later elements up. -/
def removeAt : List (List Value) → Nat → List (List Value)
  | [], _ => []
  | _ :: tl, 0 => tl
  | hd :: tl, n + 1 => hd :: removeAt tl n

/-- server.js `deleteRowById`, viewed on the operated sheet's own data (the
behaviour when that sheet is the spreadsheet's first sheet): same lookup as
`updateRowById`, then physical removal of the matched data row. -/
def deleteRowById (sheetData : List (List Value)) (id : Value) :
    Except StoreError (List (List Value)) :=
  match sheetData with
  | [] => Except.error StoreError.schemaError
  | headers :: rows =>
    match indexOfV (Value.str "id") headers with
    | none => Except.error StoreError.schemaError
    | some idCol =>
      match findIndexMatch idCol (toStr id) rows with
      | none => Except.error StoreError.notFound
      | some i => Except.ok (headers :: removeAt rows i)

/-- A whole spreadsheet: named sheets in their tab order. -/
abbrev Spreadsheet := List (String × List (List Value))

/-- `spreadsheets.values.get` on a named range: the rows of the named sheet. -/
def getSheetData (ss : Spreadsheet) (name : String) : List (List Value) :=
  match ss with
  | [] => []
  | s :: rest => if s.1 = name then s.2 else getSheetData rest name

/-- server.js `deleteRowById`, whole-spreadsheet view.  The lookup reads the
sheet named `name`, but the `deleteDimension` request is sent with
`sheetIndex: data.indexOf(headers)`; `headers` is `data[0]`, so that index
is always `0` and the row is physically removed from the spreadsheet's
FIRST sheet at absolute 0-based position `i + 1`. -/
def deleteRowByIdSS (ss : Spreadsheet) (name : String) (id : Value) :
    Except StoreError Spreadsheet :=
  match getSheetData ss name with
  | [] => Except.error StoreError.schemaError
  | headers :: rows =>
    match indexOfV (Value.str "id") headers with
    | none => Except.error StoreError.schemaError
    | some idCol =>
      match findIndexMatch idCol (toStr id) rows with
      | none => Except.error StoreError.notFound
      | some i =>
        Except.ok
          (match ss with
           | [] => []
           | s0 :: rest => (s0.1, removeAt s0.2 (i + 1)) :: rest)

/-- First record whose `id` field string-normalizes to `idStr`. -/
def findFirstMatch (idStr : String) : List Record → Option Record
  | [] => none
  | o :: os => if toStr (getField o "id") = idStr then some o else findFirstMatch idStr os

/-- The find-by-id pattern of every GET-by-id endpoint:
`rowsToObjects(data).find(r => String(r.id) === String(id))`. -/
def findById (sheetData : List (List Value)) (id : Value) : Option Record :=
  findFirstMatch (toStr id) (rowsToObjects sheetData)

/-- The id generator of every insert endpoint:
`objects.length > 0 ? Math.max(...objects.map(o => parseInt(o.id) || 0)) + 1 : 1`. -/
def generatedId (sheetData : List (List Value)) : Int :=
  match (rowsToObjects sheetData).map (fun o => parseIntOr0 (getField o "id")) with
  | [] => 1
  | x :: xs => xs.foldl max x + 1

/-- The insert pattern of every insert endpoint: append one row whose first
cell is the generated id, followed by the remaining schema fields. -/
def insertRow (sheetData : List (List Value)) (fields : List Value) : List (List Value) :=
  sheetData ++ [Value.num (generatedId sheetData) :: fields]

/-- The string-normalized id cells of a sheet's data rows, read through the
first `id` column of the header; `[]` when the sheet has no such column. -/
def rowIds (sheetData : List (List Value)) : List String :=
  match sheetData with
  | [] => []
  | headers :: rows =>
    match indexOfV (Value.str "id") headers with
    | some idCol => rows.map (fun r => toStr (r.getD idCol Value.undef))
    | none => []

/-- The uniqueness invariant of §3: id values are pairwise distinct across
the sheet's data rows (under the store's string normalization). -/
def distinctIds (sheetData : List (List Value)) : Prop := (rowIds sheetData).Nodup

instance distinctIds_decidable (sheetData : List (List Value)) :
    Decidable (distinctIds sheetData) :=
  inferInstanceAs (Decidable (rowIds sheetData).Nodup)

/-- Sheet contents after an update: the new sheet on success, the unchanged
sheet when the operation failed (every failure happens before the write). -/
def stateAfterUpdate (sheetData : List (List Value)) (id : Value)
    (newFields : List (String × Value)) : List (List Value) :=
  match updateRowById sheetData id newFields with
  | Except.ok s => s
  | Except.error _ => sheetData

/-- Sheet contents after a delete, by the same convention. -/
def stateAfterDelete (sheetData : List (List Value)) (id : Value) : List (List Value) :=
  match deleteRowById sheetData id with
  | Except.ok s => s
  | Except.error _ => sheetData

/-- Is the cell a string? Header rows of well-formed sheets hold only
string column names. -/
def isStr : Value → Bool
  | Value.str _ => true
  | _ => false

/-! ### Decimal printing and `parseInt` round-trip -/

theorem digitVal_digitChar {n : Nat} (h : n < 10) : digitVal (digitChar n) = n := by
  interval_cases n <;> decide

theorem isDigit_digitChar {n : Nat} (h : n < 10) : isDigit (digitChar n) = true := by
  interval_cases n <;> decide

theorem digitChar_ne_zero {n : Nat} (h1 : 1 ≤ n) (h2 : n < 10) : digitChar n ≠ '0' := by
  interval_cases n <;> decide

theorem natPrintAux_ne_nil (fuel n : Nat) (h : n < fuel) : natPrintAux fuel n ≠ [] := by
  cases fuel with
  | zero => omega
  | succ f =>
    simp only [natPrintAux]
    split
    · simp
    · simp

theorem natPrintAux_digits (fuel : Nat) :
    ∀ n, n < fuel → ∀ c ∈ natPrintAux fuel n, isDigit c = true := by
  induction fuel with
  | zero => intro n hn; omega
  | succ f ih =>
    intro n hn c hc
    simp only [natPrintAux] at hc
    split at hc
    · rename_i h10
      simp only [List.mem_singleton] at hc
      subst hc
      exact isDigit_digitChar h10
    · rename_i h10
      rcases List.mem_append.mp hc with hc | hc
      · have hdiv : n / 10 < n := Nat.div_lt_self (by omega) (by omega)
        exact ih (n / 10) (by omega) c hc
      · simp only [List.mem_singleton] at hc
        subst hc
        exact isDigit_digitChar (Nat.mod_lt _ (by omega))

theorem natPrintAux_foldl (fuel : Nat) :
    ∀ n a, n < fuel →
      (natPrintAux fuel n).foldl (fun x c => x * 10 + digitVal c) a =
        a * 10 ^ (natPrintAux fuel n).length + n := by
  induction fuel with
  | zero => intro n a hn; omega
  | succ f ih =>
    intro n a hn
    simp only [natPrintAux]
    split
    · rename_i h10
      simp [digitVal_digitChar h10]
    · rename_i h10
      have hdiv : n / 10 < n := Nat.div_lt_self (by omega) (by omega)
      rw [List.foldl_append, ih (n / 10) a (by omega)]
      simp only [List.foldl, List.length_append, List.length_singleton,
        digitVal_digitChar (Nat.mod_lt n (show 0 < 10 by omega))]
      have hdm : 10 * (n / 10) + n % 10 = n := Nat.div_add_mod n 10
      calc (a * 10 ^ (natPrintAux f (n / 10)).length + n / 10) * 10 + n % 10
          = a * (10 ^ (natPrintAux f (n / 10)).length * 10) + (10 * (n / 10) + n % 10) := by
            ring
        _ = a * 10 ^ ((natPrintAux f (n / 10)).length + 1) + n := by
            rw [hdm, pow_succ]

theorem natPrintAux_head_ne_zero (fuel : Nat) :
    ∀ n, n < fuel → 1 ≤ n →
      ∃ c cs, natPrintAux fuel n = c :: cs ∧ c ≠ '0' := by
  induction fuel with
  | zero => intro n hn; omega
  | succ f ih =>
    intro n hn h1
    simp only [natPrintAux]
    split
    · rename_i h10
      exact ⟨digitChar n, [], rfl, digitChar_ne_zero h1 h10⟩
    · rename_i h10
      have hdiv : n / 10 < n := Nat.div_lt_self (by omega) (by omega)
      have h1' : 1 ≤ n / 10 := Nat.one_le_div_iff (by omega) |>.mpr (by omega)
      obtain ⟨c, cs, heq, hne⟩ := ih (n / 10) (by omega) h1'
      exact ⟨c, cs ++ [digitChar (n % 10)], by rw [heq]; rfl, hne⟩

theorem takeDigitsVal_eq_foldl :
    ∀ (l : List Char) (a : Nat), (∀ c ∈ l, isDigit c = true) →
      takeDigitsVal a l = l.foldl (fun x c => x * 10 + digitVal c) a := by
  intro l
  induction l with
  | nil => intro a _; rfl
  | cons c cs ih =>
    intro a h
    simp only [takeDigitsVal, h c (by simp), if_true, List.foldl]
    exact ih _ (fun c' hc' => h c' (by simp [hc']))

theorem isDigit_not_special {c : Char} (h : isDigit c = true) :
    c ≠ '-' ∧ c ≠ '+' ∧ c ≠ 'x' ∧ c ≠ 'X' ∧ isWs c = false := by
  simp only [isDigit, decide_eq_true_eq] at h
  refine ⟨fun hc => ?_, fun hc => ?_, fun hc => ?_, fun hc => ?_, ?_⟩
  · subst hc; exact absurd h (by decide)
  · subst hc; exact absurd h (by decide)
  · subst hc; exact absurd h (by decide)
  · subst hc; exact absurd h (by decide)
  · simp only [isWs, decide_eq_false_iff_not]
    omega

theorem startsHex_eq_false {l : List Char} (h : ∀ c ∈ l, isDigit c = true) :
    startsHex l = false := by
  match l with
  | [] => rfl
  | [c] => rfl
  | c0 :: c1 :: rest =>
    have h1 := isDigit_not_special (h c1 (by simp))
    simp only [startsHex, decide_eq_false_iff_not]
    rintro ⟨-, h2 | h2⟩
    · exact h1.2.2.1 h2
    · exact h1.2.2.2.1 h2

theorem natPrint_digits (n : Nat) : ∀ c ∈ natPrint n, isDigit c = true :=
  natPrintAux_digits (n + 1) n (Nat.lt_succ_self n)

theorem natPrint_ne_nil (n : Nat) : natPrint n ≠ [] :=
  natPrintAux_ne_nil (n + 1) n (Nat.lt_succ_self n)

theorem natPrint_foldl (n : Nat) :
    (natPrint n).foldl (fun x c => x * 10 + digitVal c) 0 = n := by
  have h := natPrintAux_foldl (n + 1) n 0 (Nat.lt_succ_self n)
  simpa using h

theorem parseUnsigned_natPrint (n : Nat) : parseUnsigned (natPrint n) = some n := by
  obtain ⟨c, cs, hcons⟩ : ∃ c cs, natPrint n = c :: cs := by
    cases h : natPrint n with
    | nil => exact absurd h (natPrint_ne_nil n)
    | cons c cs => exact ⟨c, cs, rfl⟩
  have hdig := natPrint_digits n
  have hc : isDigit c = true := hdig c (by rw [hcons]; simp)
  have hcs : ∀ c' ∈ cs, isDigit c' = true := fun c' hc' => hdig c' (by rw [hcons]; simp [hc'])
  have hfold := natPrint_foldl n
  rw [hcons] at hfold
  have hval : takeDigitsVal (digitVal c) cs = n := by
    rw [takeDigitsVal_eq_foldl cs _ hcs]
    simpa [List.foldl] using hfold
  have hns : startsHex (c :: cs) = false := by
    rw [← hcons]; exact startsHex_eq_false hdig
  rw [hcons]
  unfold parseUnsigned
  rw [hns]
  simp [hc, hval]

theorem skipWs_natPrint (n : Nat) : skipWs (natPrint n) = natPrint n := by
  cases h : natPrint n with
  | nil => rfl
  | cons c cs =>
    have hc : isDigit c = true := natPrint_digits n c (by rw [h]; simp)
    simp [skipWs, (isDigit_not_special hc).2.2.2.2]

theorem parseSigned_natPrint (n : Nat) : parseSigned (natPrint n) = some (n : Int) := by
  cases h : natPrint n with
  | nil => exact absurd h (natPrint_ne_nil n)
  | cons c cs =>
    have hc : isDigit c = true := natPrint_digits n c (by rw [h]; simp)
    have hsp := isDigit_not_special hc
    simp only [parseSigned]
    rw [if_neg hsp.1, if_neg hsp.2.1, ← h, parseUnsigned_natPrint]
    rfl

theorem jsParseInt_num (k : Int) : jsParseInt (toStr (Value.num k)) = some k := by
  cases k with
  | ofNat n =>
    show parseSigned (skipWs (natPrint n)) = some (Int.ofNat n)
    rw [skipWs_natPrint, parseSigned_natPrint]
    rfl
  | negSucc m =>
    show parseSigned (skipWs ('-' :: natPrint (m + 1))) = some (Int.negSucc m)
    have : isWs '-' = false := by decide
    simp only [skipWs, this, if_false, Bool.false_eq_true]
    simp only [parseSigned, if_pos rfl]
    rw [parseUnsigned_natPrint]
    simp [Int.negSucc_eq]

theorem parseIntOr0_num (k : Int) : parseIntOr0 (Value.num k) = k := by
  unfold parseIntOr0
  rw [jsParseInt_num]
  rfl

theorem parseIntOr0_congr {a b : Value} (h : toStr a = toStr b) :
    parseIntOr0 a = parseIntOr0 b := by
  unfold parseIntOr0
  rw [h]

/-! ### List helper lemmas -/

theorem getD_set_self {α : Type} (d : α) :
    ∀ (l : List α) (i : Nat) (a : α), i < l.length → (l.set i a).getD i d = a := by
  intro l
  induction l with
  | nil => intro i a h; simp at h
  | cons x xs ih =>
    intro i a h
    cases i with
    | zero => rfl
    | succ j =>
      simp only [List.set, List.getD_cons_succ]
      exact ih j a (by simpa using h)

theorem getD_set_ne {α : Type} (d : α) :
    ∀ (l : List α) (i : Nat) (a : α) (j : Nat), j ≠ i →
      (l.set i a).getD j d = l.getD j d := by
  intro l
  induction l with
  | nil => intro i a j _; simp [List.set]
  | cons x xs ih =>
    intro i a j hne
    cases i with
    | zero =>
      cases j with
      | zero => exact absurd rfl hne
      | succ j' => simp [List.set]
    | succ i' =>
      cases j with
      | zero => rfl
      | succ j' =>
        simp only [List.set, List.getD_cons_succ]
        exact ih i' a j' (fun h => hne (by rw [h]))

theorem getD_tail {α : Type} (d : α) (l : List α) (j : Nat) :
    l.tail.getD j d = l.getD (j + 1) d := by
  cases l <;> simp [List.getD]

theorem map_set_eq {α β : Type} (f : α → β) (d : α) :
    ∀ (l : List α) (i : Nat) (a : α), f a = f (l.getD i d) →
      (l.set i a).map f = l.map f := by
  intro l
  induction l with
  | nil => intro i a _; rfl
  | cons x xs ih =>
    intro i a h
    cases i with
    | zero => simp only [List.set, List.map, List.getD_cons_zero] at h ⊢; rw [h]
    | succ i' =>
      simp only [List.set, List.map, List.getD_cons_succ] at h ⊢
      rw [ih i' a h]

theorem setAt_getD_self :
    ∀ (row : List Value) (i : Nat) (v : Value), (setAt row i v).getD i Value.undef = v := by
  intro row
  induction row with
  | nil =>
    intro i v
    induction i with
    | zero => rfl
    | succ j ihj => simpa [setAt] using ihj
  | cons hd tl ih =>
    intro i v
    cases i with
    | zero => rfl
    | succ j => simpa [setAt] using ih j v

theorem setAt_nil_getD_self :
    ∀ (i : Nat) (v : Value), (setAt [] i v).getD i Value.undef = v :=
  fun i v => setAt_getD_self [] i v

theorem setAt_getD_ne :
    ∀ (row : List Value) (i : Nat) (v : Value) (j : Nat), j ≠ i →
      (setAt row i v).getD j Value.undef = row.getD j Value.undef := by
  have hnil : ∀ (i : Nat) (v : Value) (j : Nat), j ≠ i →
      (setAt [] i v).getD j Value.undef = Value.undef := by
    intro i
    induction i with
    | zero =>
      intro v j hne
      cases j with
      | zero => exact absurd rfl hne
      | succ j' => simp [setAt, List.getD]
    | succ i' ih =>
      intro v j hne
      cases j with
      | zero => rfl
      | succ j' =>
        simp only [setAt, List.getD_cons_succ]
        exact ih v j' (fun h => hne (by rw [h]))
  intro row
  induction row with
  | nil =>
    intro i v j hne
    simpa using hnil i v j hne
  | cons hd tl ih =>
    intro i v j hne
    cases i with
    | zero =>
      cases j with
      | zero => exact absurd rfl hne
      | succ j' => simp [setAt]
    | succ i' =>
      cases j with
      | zero => rfl
      | succ j' =>
        simp only [setAt, List.getD_cons_succ]
        exact ih i' v j' (fun h => hne (by rw [h]))

theorem indexOfV_eq_none_iff (t : Value) :
    ∀ l : List Value, indexOfV t l = none ↔ t ∉ l := by
  intro l
  induction l with
  | nil => simp [indexOfV]
  | cons v vs ih =>
    by_cases hv : v = t
    · subst hv
      simp [indexOfV]
    · simp only [indexOfV, if_neg hv, Option.map_eq_none', List.mem_cons]
      rw [ih]
      constructor
      · rintro hn (h | h)
        · exact hv h.symm
        · exact hn h
      · intro hn h
        exact hn (Or.inr h)

theorem indexOfV_getD (t : Value) :
    ∀ (l : List Value) (j : Nat), indexOfV t l = some j → l.getD j Value.undef = t := by
  intro l
  induction l with
  | nil => intro j h; simp [indexOfV] at h
  | cons v vs ih =>
    intro j h
    by_cases hv : v = t
    · simp only [indexOfV, if_pos hv] at h
      cases h
      exact hv
    · simp only [indexOfV, if_neg hv] at h
      cases hidx : indexOfV t vs with
      | none => rw [hidx] at h; simp at h
      | some j' =>
        rw [hidx] at h
        simp only [Option.map_some'] at h
        cases h
        simpa using ih j' hidx

theorem indexOfV_isSome_of_mem {t : Value} {l : List Value} (h : t ∈ l) :
    ∃ j, indexOfV t l = some j := by
  cases hidx : indexOfV t l with
  | none => exact absurd h ((indexOfV_eq_none_iff t l).mp hidx)
  | some j => exact ⟨j, rfl⟩

theorem findIndexMatch_eq_none_iff (idCol : Nat) (s : String) :
    ∀ rows : List (List Value),
      findIndexMatch idCol s rows = none ↔
        ∀ r ∈ rows, toStr (r.getD idCol Value.undef) ≠ s := by
  intro rows
  induction rows with
  | nil => simp [findIndexMatch]
  | cons r rs ih =>
    by_cases hm : toStr (r.getD idCol Value.undef) = s
    · simp only [findIndexMatch, if_pos hm]
      constructor
      · intro h; exact absurd h (Option.some_ne_none 0)
      · intro h; exact absurd hm (h r (List.mem_cons_self r rs))
    · simp only [findIndexMatch, if_neg hm, Option.map_eq_none', List.mem_cons]
      rw [ih]
      constructor
      · rintro hn x (rfl | hx)
        · exact hm
        · exact hn x hx
      · intro hn x hx
        exact hn x (Or.inr hx)

theorem findIndexMatch_spec (idCol : Nat) (s : String) :
    ∀ (rows : List (List Value)) (i : Nat), findIndexMatch idCol s rows = some i →
      i < rows.length ∧ toStr ((rows.getD i []).getD idCol Value.undef) = s ∧
      ∀ j, j < i → toStr ((rows.getD j []).getD idCol Value.undef) ≠ s := by
  intro rows
  induction rows with
  | nil => intro i h; simp [findIndexMatch] at h
  | cons r rs ih =>
    intro i h
    by_cases hm : toStr (r.getD idCol Value.undef) = s
    · simp only [findIndexMatch, if_pos hm] at h
      cases h
      exact ⟨by simp, by simpa using hm, by omega⟩
    · simp only [findIndexMatch, if_neg hm] at h
      cases hidx : findIndexMatch idCol s rs with
      | none => rw [hidx] at h; simp at h
      | some i' =>
        rw [hidx] at h
        simp only [Option.map_some'] at h
        cases h
        obtain ⟨h1, h2, h3⟩ := ih i' hidx
        refine ⟨by simpa using Nat.succ_lt_succ h1, by simpa using h2, ?_⟩
        intro j hj
        cases j with
        | zero => simpa using hm
        | succ j' =>
          simp only [List.getD_cons_succ]
          exact h3 j' (by omega)

theorem findIndexMatch_eq_some (idCol : Nat) (s : String) :
    ∀ (rows : List (List Value)) (i : Nat), i < rows.length →
      toStr ((rows.getD i []).getD idCol Value.undef) = s →
      (∀ j, j < i → toStr ((rows.getD j []).getD idCol Value.undef) ≠ s) →
      findIndexMatch idCol s rows = some i := by
  intro rows
  induction rows with
  | nil => intro i h; simp at h
  | cons r rs ih =>
    intro i hlen hmatch hbefore
    cases i with
    | zero =>
      simp only [List.getD_cons_zero] at hmatch
      simp only [findIndexMatch, if_pos hmatch]
    | succ i' =>
      have hr : toStr (r.getD idCol Value.undef) ≠ s := by
        have := hbefore 0 (Nat.succ_pos i')
        simpa using this
      simp only [findIndexMatch, if_neg hr]
      rw [ih i' (by simpa using hlen) (by simpa using hmatch)
        (fun j hj => by simpa using hbefore (j + 1) (by omega))]
      rfl

theorem mem_removeAt :
    ∀ (l : List (List Value)) (i : Nat) (x : List Value), x ∈ removeAt l i → x ∈ l := by
  intro l
  induction l with
  | nil => intro i x h; simp [removeAt] at h
  | cons hd tl ih =>
    intro i x h
    cases i with
    | zero => exact List.mem_cons_of_mem hd h
    | succ i' =>
      rcases List.mem_cons.mp h with rfl | h'
      · exact List.mem_cons_self x tl
      · exact List.mem_cons_of_mem hd (ih i' x h')

theorem nodup_map_removeAt (f : List Value → String) :
    ∀ (l : List (List Value)) (i : Nat),
      (l.map f).Nodup → ((removeAt l i).map f).Nodup := by
  intro l
  induction l with
  | nil => intro i _; simp [removeAt]
  | cons hd tl ih =>
    intro i h
    rw [List.map_cons, List.nodup_cons] at h
    cases i with
    | zero => exact h.2
    | succ i' =>
      simp only [removeAt, List.map_cons, List.nodup_cons]
      refine ⟨?_, ih i' h.2⟩
      intro hmem
      obtain ⟨r, hr, hfr⟩ := List.mem_map.mp hmem
      exact h.1 (List.mem_map.mpr ⟨r, mem_removeAt tl i' r hr, hfr⟩)

theorem le_foldl_max :
    ∀ (xs : List Int) (x : Int),
      x ≤ xs.foldl max x ∧ ∀ i ∈ xs, i ≤ xs.foldl max x := by
  intro xs
  induction xs with
  | nil => intro x; simp
  | cons y ys ih =>
    intro x
    constructor
    · exact le_trans (le_max_left x y) ((ih (max x y)).1)
    · intro i hi
      rcases List.mem_cons.mp hi with rfl | hi'
      · exact le_trans (le_max_right x i) ((ih (max x i)).1)
      · exact (ih (max x y)).2 i hi'

theorem foldl_max_mem :
    ∀ (xs : List Int) (x : Int), xs.foldl max x = x ∨ xs.foldl max x ∈ xs := by
  intro xs
  induction xs with
  | nil => intro x; exact Or.inl rfl
  | cons y ys ih =>
    intro x
    rcases ih (max x y) with h | h
    · rcases max_choice x y with hm | hm
      · exact Or.inl (by rw [List.foldl, h, hm])
      · exact Or.inr (by rw [List.foldl, h, hm]; exact List.mem_cons_self y ys)
    · exact Or.inr (List.mem_cons_of_mem y h)

/-! ### Record (header-keyed object) lemmas -/

theorem isStr_exists {h : Value} (hs : isStr h = true) : ∃ s, h = Value.str s := by
  cases h with
  | str s => exact ⟨s, rfl⟩
  | num n => simp [isStr] at hs
  | boolV b => simp [isStr] at hs
  | undef => simp [isStr] at hs

theorem lookupLast?_rowToObject_eq_none (k : String) :
    ∀ (hs row : List Value), (∀ h ∈ hs, toStr h ≠ k) →
      lookupLast? (rowToObject hs row) k = none := by
  intro hs
  induction hs with
  | nil => intro row _; rfl
  | cons h t ih =>
    intro row hne
    simp only [rowToObject, lookupLast?]
    rw [ih row.tail (fun h' hm => hne h' (List.mem_cons_of_mem h hm))]
    rw [if_neg (hne h (List.mem_cons_self h t))]

theorem getField_rowToObject (k : String) :
    ∀ (headers row : List Value) (j : Nat),
      (∀ h ∈ headers, isStr h = true) →
      (headers.map toStr).Nodup →
      indexOfV (Value.str k) headers = some j →
      getField (rowToObject headers row) k = row.getD j Value.undef := by
  intro headers
  induction headers with
  | nil => intro row j _ _ hj; simp [indexOfV] at hj
  | cons h t ih =>
    intro row j hstr hnodup hj
    rw [List.map_cons, List.nodup_cons] at hnodup
    by_cases hh : h = Value.str k
    · rw [indexOfV, if_pos hh] at hj
      cases hj
      have hkey : toStr h = k := by rw [hh]; rfl
      have hnone : lookupLast? (rowToObject t row.tail) k = none := by
        apply lookupLast?_rowToObject_eq_none
        intro h' hm hk
        exact hnodup.1 (by rw [hkey, ← hk]; exact List.mem_map_of_mem toStr hm)
      simp only [rowToObject, getField, lookupLast?, hnone]
      rw [if_pos hkey]
      rfl
    · rw [indexOfV, if_neg hh] at hj
      cases hidx : indexOfV (Value.str k) t with
      | none => rw [hidx] at hj; simp at hj
      | some j' =>
        rw [hidx] at hj
        simp only [Option.map_some'] at hj
        cases hj
        obtain ⟨s, rfl⟩ := isStr_exists (hstr h (List.mem_cons_self h t))
        have hkey : toStr (Value.str s) ≠ k := by
          intro hk
          exact hh (by rw [← hk]; rfl)
        have hstep :
            getField (rowToObject (Value.str s :: t) row) k =
              getField (rowToObject t row.tail) k := by
          simp only [rowToObject, getField, lookupLast?]
          cases lookupLast? (rowToObject t row.tail) k with
          | some v => rfl
          | none => rw [if_neg hkey]
        rw [hstep,
          ih row.tail j' (fun h' hm => hstr h' (List.mem_cons_of_mem _ hm)) hnodup.2 hidx,
          getD_tail]

theorem getField_rowToObject_none (k : String) (headers row : List Value)
    (hstr : ∀ h ∈ headers, isStr h = true)
    (hnone : indexOfV (Value.str k) headers = none) :
    getField (rowToObject headers row) k = Value.undef := by
  unfold getField
  rw [lookupLast?_rowToObject_eq_none]
  · rfl
  · intro h hm hk
    obtain ⟨s, rfl⟩ := isStr_exists (hstr h hm)
    have : Value.str s = Value.str k := by
      have hs : toStr (Value.str s) = s := rfl
      rw [hs] at hk
      rw [hk]
    exact (indexOfV_eq_none_iff _ _).mp hnone (this ▸ hm)

/-! ### Merge-loop (`applyFields`) lemmas -/

theorem applyFields_getD_frame (headers : List Value) :
    ∀ (fields : List (String × Value)) (row : List Value) (j : Nat),
      (∀ kv ∈ fields, indexOfV (Value.str kv.1) headers ≠ some j) →
      (applyFields headers row fields).getD j Value.undef = row.getD j Value.undef := by
  intro fields
  induction fields with
  | nil => intro row j _; rfl
  | cons kv rest ih =>
    intro row j hno
    simp only [applyFields]
    cases hidx : indexOfV (Value.str kv.1) headers with
    | none =>
      exact ih row j (fun kv' hm => hno kv' (List.mem_cons_of_mem kv hm))
    | some j' =>
      have hj' : j' ≠ j := by
        intro hc
        exact hno kv (List.mem_cons_self kv rest) (by rw [hidx, hc])
      rw [ih (setAt row j' kv.2) j (fun kv' hm => hno kv' (List.mem_cons_of_mem kv hm))]
      exact setAt_getD_ne row j' kv.2 j (fun h => hj' h.symm)

theorem applyFields_getD_mem (headers : List Value) :
    ∀ (fields : List (String × Value)) (row : List Value) (k : String) (v : Value) (j : Nat),
      (fields.map Prod.fst).Nodup →
      (k, v) ∈ fields →
      indexOfV (Value.str k) headers = some j →
      (applyFields headers row fields).getD j Value.undef = v := by
  intro fields
  induction fields with
  | nil => intro row k v j _ hm; simp at hm
  | cons kv rest ih =>
    intro row k v j hnodup hmem hidx
    rw [List.map_cons, List.nodup_cons] at hnodup
    rcases List.mem_cons.mp hmem with heq | hmem'
    · have hk : kv.1 = k := by rw [← heq]
      have hv : kv.2 = v := by rw [← heq]
      simp only [applyFields, hk, hidx]
      rw [applyFields_getD_frame]
      · rw [hv]
        exact setAt_getD_self row j v
      · intro kv' hm' hidx'
        have h1 := indexOfV_getD _ _ _ hidx'
        have h2 := indexOfV_getD _ _ _ hidx
        rw [h2] at h1
        have : kv'.1 = k := by
          have := Value.str.inj h1
          exact this.symm
        exact hnodup.1 (by rw [hk, ← this]; exact List.mem_map_of_mem Prod.fst hm')
    · simp only [applyFields]
      cases hidx2 : indexOfV (Value.str kv.1) headers with
      | none => exact ih row k v j hnodup.2 hmem' hidx
      | some j2 => exact ih (setAt row j2 kv.2) k v j hnodup.2 hmem' hidx

theorem applyFields_preserves_idCol (headers : List Value) (idCol : Nat)
    (hidx : indexOfV (Value.str "id") headers = some idCol)
    (fields : List (String × Value)) (hnoid : ∀ kv ∈ fields, kv.1 ≠ "id")
    (row : List Value) :
    (applyFields headers row fields).getD idCol Value.undef = row.getD idCol Value.undef := by
  apply applyFields_getD_frame
  intro kv hm heq
  have h1 := indexOfV_getD _ _ _ heq
  have h2 := indexOfV_getD _ _ _ hidx
  rw [h1] at h2
  exact hnoid kv hm (Value.str.inj h2)

theorem applyFields_filter (headers : List Value) :
    ∀ (fields : List (String × Value)) (row : List Value),
      applyFields headers row fields =
        applyFields headers row
          (fields.filter (fun kv => (indexOfV (Value.str kv.1) headers).isSome)) := by
  intro fields
  induction fields with
  | nil => intro row; rfl
  | cons kv rest ih =>
    intro row
    simp only [applyFields, List.filter]
    cases hidx : indexOfV (Value.str kv.1) headers with
    | none =>
      simp only [hidx, Option.isSome_none]
      exact ih row
    | some j =>
      simp only [hidx, Option.isSome_some, applyFields]
      exact ih (setAt row j kv.2)

/-! ### Store-operation inversion and preservation lemmas -/

theorem updateRowById_ok {headers : List Value} {rows : List (List Value)} {id : Value}
    {newFields : List (String × Value)} {sheet2 : List (List Value)}
    (h : updateRowById (headers :: rows) id newFields = Except.ok sheet2) :
    ∃ idCol i, indexOfV (Value.str "id") headers = some idCol ∧
      findIndexMatch idCol (toStr id) rows = some i ∧
      sheet2 = headers :: rows.set i (applyFields headers (rows.getD i []) newFields) := by
  simp only [updateRowById] at h
  split at h
  · simp at h
  · rename_i idCol hidx
    split at h
    · simp at h
    · rename_i i hfi
      simp only [Except.ok.injEq] at h
      exact ⟨idCol, i, hidx, hfi, h.symm⟩

theorem deleteRowById_ok {headers : List Value} {rows : List (List Value)} {id : Value}
    {sheet2 : List (List Value)}
    (h : deleteRowById (headers :: rows) id = Except.ok sheet2) :
    ∃ idCol i, indexOfV (Value.str "id") headers = some idCol ∧
      findIndexMatch idCol (toStr id) rows = some i ∧
      sheet2 = headers :: removeAt rows i := by
  simp only [deleteRowById] at h
  split at h
  · simp at h
  · rename_i idCol hidx
    split at h
    · simp at h
    · rename_i i hfi
      simp only [Except.ok.injEq] at h
      exact ⟨idCol, i, hidx, hfi, h.symm⟩

theorem updateRowById_rowIds {sheetData : List (List Value)} {id : Value}
    {newFields : List (String × Value)} {sheet2 : List (List Value)}
    (hnoid : ∀ kv ∈ newFields, kv.1 ≠ "id")
    (h : updateRowById sheetData id newFields = Except.ok sheet2) :
    rowIds sheet2 = rowIds sheetData := by
  cases sheetData with
  | nil => exact absurd h (by simp [updateRowById])
  | cons headers rows =>
    obtain ⟨idCol, i, hidx, hfi, hs⟩ := updateRowById_ok h
    subst hs
    simp only [rowIds, hidx]
    apply map_set_eq
    congr 1
    exact applyFields_preserves_idCol headers idCol hidx newFields hnoid (rows.getD i [])

/-! ### Find-by-id lemmas -/

theorem findFirstMatch_eq_none_iff (s : String) :
    ∀ l : List Record, findFirstMatch s l = none ↔ ∀ o ∈ l, toStr (getField o "id") ≠ s := by
  intro l
  induction l with
  | nil => simp [findFirstMatch]
  | cons o os ih =>
    by_cases hm : toStr (getField o "id") = s
    · simp only [findFirstMatch, if_pos hm]
      constructor
      · intro h; exact absurd h (Option.some_ne_none o)
      · intro h; exact absurd hm (h o (List.mem_cons_self o os))
    · simp only [findFirstMatch, if_neg hm]
      rw [ih]
      constructor
      · intro hn x hx
        rcases List.mem_cons.mp hx with rfl | hx'
        · exact hm
        · exact hn x hx'
      · intro hn x hx
        exact hn x (List.mem_cons_of_mem o hx)

theorem findFirstMatch_eq_some_split (s : String) :
    ∀ (l : List Record) (o : Record), findFirstMatch s l = some o →
      toStr (getField o "id") = s ∧
      ∃ l1 l2, l = l1 ++ o :: l2 ∧ ∀ x ∈ l1, toStr (getField x "id") ≠ s := by
  intro l
  induction l with
  | nil => intro o h; simp [findFirstMatch] at h
  | cons o' os ih =>
    intro o h
    by_cases hm : toStr (getField o' "id") = s
    · rw [findFirstMatch, if_pos hm] at h
      cases h
      exact ⟨hm, [], os, rfl, by simp⟩
    · rw [findFirstMatch, if_neg hm] at h
      obtain ⟨h1, l1, l2, hsplit, hbefore⟩ := ih o h
      refine ⟨h1, o' :: l1, l2, by rw [hsplit]; rfl, ?_⟩
      intro x hx
      rcases List.mem_cons.mp hx with rfl | hx'
      · exact hm
      · exact hbefore x hx'

theorem findFirstMatch_map_rowToObject (headers : List Value) (idCol : Nat) (s : String)
    (hcell : ∀ row : List Value,
      toStr (getField (rowToObject headers row) "id") = toStr (row.getD idCol Value.undef)) :
    ∀ rows : List (List Value),
      findFirstMatch s (rows.map (rowToObject headers)) =
        (findIndexMatch idCol s rows).map (fun i => rowToObject headers (rows.getD i [])) := by
  intro rows
  induction rows with
  | nil => rfl
  | cons r rs ih =>
    simp only [List.map_cons, findFirstMatch, findIndexMatch, hcell r]
    by_cases hm : toStr (r.getD idCol Value.undef) = s
    · rw [if_pos hm, if_pos hm]
      rfl
    · rw [if_neg hm, if_neg hm, ih]
      cases findIndexMatch idCol s rs with
      | none => rfl
      | some i => rfl

theorem getField_id_cell (headers : List Value) (idCol : Nat)
    (hstr : ∀ h ∈ headers, isStr h = true)
    (hnodup : (headers.map toStr).Nodup)
    (hidx : indexOfV (Value.str "id") headers = some idCol) (row : List Value) :
    getField (rowToObject headers row) "id" = row.getD idCol Value.undef :=
  getField_rowToObject "id" headers row idCol hstr hnodup hidx

/-! ### Generated-id lemmas -/

theorem generatedId_spec (sheetData : List (List Value))
    (h : rowsToObjects sheetData ≠ []) :
    ∃ m, generatedId sheetData = m + 1 ∧
      m ∈ (rowsToObjects sheetData).map (fun o => parseIntOr0 (getField o "id")) ∧
      ∀ i ∈ (rowsToObjects sheetData).map (fun o => parseIntOr0 (getField o "id")), i ≤ m := by
  unfold generatedId
  cases hm : (rowsToObjects sheetData).map (fun o => parseIntOr0 (getField o "id")) with
  | nil => exact absurd (List.map_eq_nil_iff.mp hm) h
  | cons x xs =>
    refine ⟨xs.foldl max x, rfl, ?_, ?_⟩
    · rcases foldl_max_mem xs x with he | he
      · rw [he]; exact List.mem_cons_self x xs
      · exact List.mem_cons_of_mem x he
    · intro i hi
      rcases List.mem_cons.mp hi with rfl | hi'
      · exact (le_foldl_max xs i).1
      · exact (le_foldl_max xs x).2 i hi'

/-! ### Claim theorems -/

/-- C1: insert generates the new record's id as 1 plus the maximum over the
existing data rows of (`parseInt` of the row's id, or 0 when not numeric),
and assigns id 1 when the sheet has no data rows; gap-filling (count+1) is
never performed, so with existing ids [1,3,5] the generated id is 6. -/
theorem insert_id_is_max_plus_one :
    (∀ sheetData : List (List Value), rowsToObjects sheetData = [] →
      generatedId sheetData = 1) ∧
    (∀ sheetData : List (List Value), rowsToObjects sheetData ≠ [] →
      ∃ m, generatedId sheetData = m + 1 ∧
        m ∈ (rowsToObjects sheetData).map (fun o => parseIntOr0 (getField o "id")) ∧
        ∀ i ∈ (rowsToObjects sheetData).map (fun o => parseIntOr0 (getField o "id")), i ≤ m) ∧
    generatedId [[Value.str "id"], [Value.num 1], [Value.num 3], [Value.num 5]] = 6 := by
  refine ⟨?_, ?_, ?_⟩
  · intro sheetData h
    simp [generatedId, h]
  · intro sheetData h
    exact generatedId_spec sheetData h
  · rfl

/-- Witness for C1: a header-only sheet gets id 1; ids [1,3,5] yield 6. -/
theorem insert_id_is_max_plus_one_witness :
    generatedId [[Value.str "id"]] = 1 ∧
    generatedId [[Value.str "id"], [Value.num 1], [Value.num 3], [Value.num 5]] = 6 :=
  ⟨insert_id_is_max_plus_one.1 [[Value.str "id"]] rfl, insert_id_is_max_plus_one.2.2⟩

/-- C2 counterexample: with a payload containing the key `id`,
`updateRowById` succeeds but rewrites the id cell, so the subsequent
`findById` with the original id finds nothing instead of the updated
record; the claim fails for id-bearing payloads. -/
theorem update_with_id_key_breaks_lookup :
    updateRowById [[Value.str "id", Value.str "name"], [Value.num 5, Value.str "tea"]]
        (Value.num 5) [("id", Value.num 6)] =
      Except.ok [[Value.str "id", Value.str "name"], [Value.num 6, Value.str "tea"]] ∧
    findById [[Value.str "id", Value.str "name"], [Value.num 6, Value.str "tea"]]
        (Value.num 5) = none :=
  ⟨rfl, rfl⟩

/-- C2 (amended): for a header of distinct string column names and a
payload with distinct keys that does not contain the key `id`, a successful
`updateRowById` followed by `findById` returns a record in which every
payload key that names a header column carries the payload value, and every
other field equals its value in the record found before the update. -/
theorem update_frame_isolation
    (headers : List Value) (rows : List (List Value)) (id : Value)
    (payload : List (String × Value)) (sheet2 : List (List Value))
    (hstr : ∀ h ∈ headers, isStr h = true)
    (hnodup : (headers.map toStr).Nodup)
    (hkeys : (payload.map Prod.fst).Nodup)
    (hnoid : ∀ kv ∈ payload, kv.1 ≠ "id")
    (hok : updateRowById (headers :: rows) id payload = Except.ok sheet2) :
    ∃ r r', findById (headers :: rows) id = some r ∧ findById sheet2 id = some r' ∧
      (∀ k v, (k, v) ∈ payload → Value.str k ∈ headers → getField r' k = v) ∧
      (∀ k : String, (∀ v, (k, v) ∉ payload) → getField r' k = getField r k) ∧
      (∀ k : String, Value.str k ∉ headers → getField r' k = getField r k) := by
  obtain ⟨idCol, i, hidx, hfi, hs⟩ := updateRowById_ok hok
  subst hs
  obtain ⟨hilen, hieq, hibefore⟩ := findIndexMatch_spec idCol (toStr id) rows i hfi
  have hcell : ∀ row : List Value,
      toStr (getField (rowToObject headers row) "id") = toStr (row.getD idCol Value.undef) :=
    fun row => by rw [getField_id_cell headers idCol hstr hnodup hidx row]
  have hfind1 : findById (headers :: rows) id = some (rowToObject headers (rows.getD i [])) := by
    show findFirstMatch (toStr id) (rows.map (rowToObject headers)) = _
    rw [findFirstMatch_map_rowToObject headers idCol (toStr id) hcell rows, hfi]
    rfl
  have hidcell :
      (applyFields headers (rows.getD i []) payload).getD idCol Value.undef =
        (rows.getD i []).getD idCol Value.undef :=
    applyFields_preserves_idCol headers idCol hidx payload hnoid (rows.getD i [])
  have hfi2 : findIndexMatch idCol (toStr id)
      (rows.set i (applyFields headers (rows.getD i []) payload)) = some i := by
    apply findIndexMatch_eq_some
    · rw [List.length_set]; exact hilen
    · rw [getD_set_self ([] : List Value) rows i _ hilen, hidcell]; exact hieq
    · intro j hj
      rw [getD_set_ne ([] : List Value) rows i _ j (by omega)]
      exact hibefore j hj
  have hfind2 : findById
      (headers :: rows.set i (applyFields headers (rows.getD i []) payload)) id =
      some (rowToObject headers (applyFields headers (rows.getD i []) payload)) := by
    show findFirstMatch (toStr id)
      ((rows.set i (applyFields headers (rows.getD i []) payload)).map
        (rowToObject headers)) = _
    rw [findFirstMatch_map_rowToObject headers idCol (toStr id) hcell, hfi2]
    simp only [Option.map_some']
    rw [getD_set_self ([] : List Value) rows i _ hilen]
  refine ⟨rowToObject headers (rows.getD i []),
    rowToObject headers (applyFields headers (rows.getD i []) payload),
    hfind1, hfind2, ?_, ?_, ?_⟩
  · intro k v hkv hmem
    obtain ⟨jk, hjk⟩ := indexOfV_isSome_of_mem hmem
    rw [getField_rowToObject k headers _ jk hstr hnodup hjk]
    exact applyFields_getD_mem headers payload (rows.getD i []) k v jk hkeys hkv hjk
  · intro k hknot
    cases hjk : indexOfV (Value.str k) headers with
    | none =>
      rw [getField_rowToObject_none k headers _ hstr hjk,
        getField_rowToObject_none k headers (rows.getD i []) hstr hjk]
    | some jk =>
      rw [getField_rowToObject k headers _ jk hstr hnodup hjk,
        getField_rowToObject k headers (rows.getD i []) jk hstr hnodup hjk]
      apply applyFields_getD_frame
      intro kv hm hc
      have h1 := indexOfV_getD _ _ _ hc
      have h2 := indexOfV_getD _ _ _ hjk
      rw [h1] at h2
      have hk : kv.1 = k := Value.str.inj h2
      apply hknot kv.2
      have hkv2 : kv = (k, kv.2) := by rw [← hk]
      rw [← hkv2]
      exact hm
  · intro k hknot
    have hjk : indexOfV (Value.str k) headers = none := (indexOfV_eq_none_iff _ _).mpr hknot
    rw [getField_rowToObject_none k headers _ hstr hjk,
      getField_rowToObject_none k headers (rows.getD i []) hstr hjk]

/-- Witness for the amended C2 at a concrete sheet and payload. -/
theorem update_frame_isolation_witness :
    ∃ r r',
      findById [[Value.str "id", Value.str "name"], [Value.num 1, Value.str "tea"]]
          (Value.num 1) = some r ∧
      findById [[Value.str "id", Value.str "name"], [Value.num 1, Value.str "coffee"]]
          (Value.num 1) = some r' ∧
      (∀ k v, (k, v) ∈ [("name", Value.str "coffee")] →
        Value.str k ∈ [Value.str "id", Value.str "name"] → getField r' k = v) ∧
      (∀ k : String, (∀ v, (k, v) ∉ [("name", Value.str "coffee")]) →
        getField r' k = getField r k) ∧
      (∀ k : String, Value.str k ∉ [Value.str "id", Value.str "name"] →
        getField r' k = getField r k) :=
  update_frame_isolation [Value.str "id", Value.str "name"]
    [[Value.num 1, Value.str "tea"]] (Value.num 1) [("name", Value.str "coffee")]
    [[Value.str "id", Value.str "name"], [Value.num 1, Value.str "coffee"]]
    (by decide) (by decide) (by decide) (by decide) rfl

/-- C3 counterexample: `updateRowById` has no guard for the key `id`; a
payload containing `id` overwrites the id cell of the stored row, changing
the sheet's id column. -/
theorem update_overwrites_id_cell :
    updateRowById [[Value.str "id", Value.str "name"], [Value.num 1, Value.str "a"]]
        (Value.num 1) [("id", Value.str "9")] =
      Except.ok [[Value.str "id", Value.str "name"], [Value.str "9", Value.str "a"]] ∧
    rowIds [[Value.str "id", Value.str "name"], [Value.str "9", Value.str "a"]] ≠
      rowIds [[Value.str "id", Value.str "name"], [Value.num 1, Value.str "a"]] :=
  ⟨rfl, by decide⟩

/-- C3 (amended): `updateRowById` leaves the id column of every row
unchanged whenever the payload does not contain an `id` key; when the
payload does contain `id` (and the header has an id column), the id cell is
overwritten with the payload value. -/
theorem update_keeps_ids_without_id_key (sheetData : List (List Value)) (id : Value)
    (payload : List (String × Value)) (sheet2 : List (List Value))
    (hnoid : ∀ kv ∈ payload, kv.1 ≠ "id")
    (hok : updateRowById sheetData id payload = Except.ok sheet2) :
    rowIds sheet2 = rowIds sheetData :=
  updateRowById_rowIds hnoid hok

/-- Witness for the amended C3 at a concrete sheet and payload. -/
theorem update_keeps_ids_without_id_key_witness :
    rowIds [[Value.str "id", Value.str "name"], [Value.num 3, Value.str "b"]] =
      rowIds [[Value.str "id", Value.str "name"], [Value.num 3, Value.str "a"]] :=
  update_keeps_ids_without_id_key
    [[Value.str "id", Value.str "name"], [Value.num 3, Value.str "a"]] (Value.num 3)
    [("name", Value.str "b")]
    [[Value.str "id", Value.str "name"], [Value.num 3, Value.str "b"]]
    (by decide) rfl

/-- C4 (code bug, evaluated at the failing input): the `deleteDimension`
request is sent with `sheetIndex: data.indexOf(headers)`, which is always 0,
so deleting id 2 from the sheet named "beta" physically removes the row at
the computed position from the spreadsheet's first sheet "alpha" and leaves
"beta" untouched. -/
theorem delete_targets_first_sheet :
    deleteRowByIdSS
      [("alpha", [[Value.str "id", Value.str "name"],
        [Value.num 10, Value.str "x"], [Value.num 11, Value.str "y"]]),
       ("beta", [[Value.str "id", Value.str "name"],
        [Value.num 1, Value.str "b1"], [Value.num 2, Value.str "b2"]])]
      "beta" (Value.num 2) =
    Except.ok
      [("alpha", [[Value.str "id", Value.str "name"], [Value.num 10, Value.str "x"]]),
       ("beta", [[Value.str "id", Value.str "name"],
        [Value.num 1, Value.str "b1"], [Value.num 2, Value.str "b2"]])] := by
  rfl

/-- C5: `findById` compares ids by string normalization — numeric 7 and
textual "7" are the same key — and returns the first record whose id field
matches, or nothing when no record matches. -/
theorem findById_first_string_match (sheetData : List (List Value)) (id : Value) :
    toStr (Value.num 7) = toStr (Value.str "7") ∧
    (findById sheetData id = none ↔
      ∀ o ∈ rowsToObjects sheetData, toStr (getField o "id") ≠ toStr id) ∧
    (∀ r, findById sheetData id = some r →
      toStr (getField r "id") = toStr id ∧
      ∃ l1 l2, rowsToObjects sheetData = l1 ++ r :: l2 ∧
        ∀ x ∈ l1, toStr (getField x "id") ≠ toStr id) := by
  refine ⟨rfl, ?_, ?_⟩
  · exact findFirstMatch_eq_none_iff (toStr id) (rowsToObjects sheetData)
  · intro r h
    exact findFirstMatch_eq_some_split (toStr id) (rowsToObjects sheetData) r h

/-- Witness for C5: the textual id "7" finds the record stored with the
numeric id 7, as the first (and only) match. -/
theorem findById_first_string_match_witness :
    toStr (getField [("id", Value.num 7)] "id") = toStr (Value.str "7") ∧
    ∃ l1 l2,
      rowsToObjects [[Value.str "id"], [Value.num 7]] = l1 ++ [("id", Value.num 7)] :: l2 ∧
      ∀ x ∈ l1, toStr (getField x "id") ≠ toStr (Value.str "7") :=
  (findById_first_string_match [[Value.str "id"], [Value.num 7]] (Value.str "7")).2.2
    [("id", Value.num 7)] rfl

/-- C6: when no data row's id cell string-matches the requested id, both
`updateRowById` and `deleteRowById` fail with `NotFound`, and the failure
happens before any write, leaving the sheet unchanged. -/
theorem missing_id_fails_not_found (headers : List Value) (rows : List (List Value))
    (id : Value) (payload : List (String × Value)) (idCol : Nat)
    (hidx : indexOfV (Value.str "id") headers = some idCol)
    (hnone : ∀ r ∈ rows, toStr (r.getD idCol Value.undef) ≠ toStr id) :
    updateRowById (headers :: rows) id payload = Except.error StoreError.notFound ∧
    deleteRowById (headers :: rows) id = Except.error StoreError.notFound ∧
    stateAfterUpdate (headers :: rows) id payload = headers :: rows ∧
    stateAfterDelete (headers :: rows) id = headers :: rows := by
  have hfi : findIndexMatch idCol (toStr id) rows = none :=
    (findIndexMatch_eq_none_iff idCol (toStr id) rows).mpr hnone
  have h1 : updateRowById (headers :: rows) id payload = Except.error StoreError.notFound := by
    simp only [updateRowById, hidx, hfi]
  have h2 : deleteRowById (headers :: rows) id = Except.error StoreError.notFound := by
    simp only [deleteRowById, hidx, hfi]
  exact ⟨h1, h2, by simp only [stateAfterUpdate, h1], by simp only [stateAfterDelete, h2]⟩

/-- Witness for C6 at a concrete sheet and an id that is absent. -/
theorem missing_id_fails_not_found_witness :
    updateRowById [[Value.str "id"], [Value.num 1]] (Value.num 9) [] =
      Except.error StoreError.notFound ∧
    deleteRowById [[Value.str "id"], [Value.num 1]] (Value.num 9) =
      Except.error StoreError.notFound ∧
    stateAfterUpdate [[Value.str "id"], [Value.num 1]] (Value.num 9) [] =
      [[Value.str "id"], [Value.num 1]] ∧
    stateAfterDelete [[Value.str "id"], [Value.num 1]] (Value.num 9) =
      [[Value.str "id"], [Value.num 1]] :=
  missing_id_fails_not_found [Value.str "id"] [[Value.num 1]] (Value.num 9) [] 0
    rfl (by decide)

/-- C7: `updateRowById` and `deleteRowById` fail with `SchemaError` (and
write nothing) exactly when the sheet is entirely empty or its header row
contains no column named `id`. -/
theorem schema_error_iff_empty_or_no_id (sheetData : List (List Value)) (id : Value)
    (payload : List (String × Value)) :
    (updateRowById sheetData id payload = Except.error StoreError.schemaError ↔
      sheetData = [] ∨ Value.str "id" ∉ sheetData.getD 0 []) ∧
    (deleteRowById sheetData id = Except.error StoreError.schemaError ↔
      sheetData = [] ∨ Value.str "id" ∉ sheetData.getD 0 []) ∧
    ((sheetData = [] ∨ Value.str "id" ∉ sheetData.getD 0 []) →
      stateAfterUpdate sheetData id payload = sheetData ∧
      stateAfterDelete sheetData id = sheetData) := by
  cases sheetData with
  | nil =>
    refine ⟨?_, ?_, fun _ => ⟨rfl, rfl⟩⟩
    · simp [updateRowById]
    · simp [deleteRowById]
  | cons headers rows =>
    have hne : (headers :: rows : List (List Value)) ≠ [] := by simp
    cases hidx : indexOfV (Value.str "id") headers with
    | none =>
      have hmem : Value.str "id" ∉ headers := (indexOfV_eq_none_iff _ _).mp hidx
      have h1 : updateRowById (headers :: rows) id payload =
          Except.error StoreError.schemaError := by
        simp only [updateRowById, hidx]
      have h2 : deleteRowById (headers :: rows) id =
          Except.error StoreError.schemaError := by
        simp only [deleteRowById, hidx]
      refine ⟨?_, ?_, ?_⟩
      · rw [h1]
        exact iff_of_true rfl (Or.inr (by simpa using hmem))
      · rw [h2]
        exact iff_of_true rfl (Or.inr (by simpa using hmem))
      · intro _
        exact ⟨by simp only [stateAfterUpdate, h1], by simp only [stateAfterDelete, h2]⟩
    | some idCol =>
      have hmem : Value.str "id" ∈ headers := by
        by_contra hmem
        rw [(indexOfV_eq_none_iff _ _).mpr hmem] at hidx
        exact Option.noConfusion hidx
      have hrhs : ¬((headers :: rows : List (List Value)) = [] ∨
          Value.str "id" ∉ (headers :: rows).getD 0 []) := by
        rintro (h | h)
        · exact hne h
        · exact h (by simpa using hmem)
      have h1 : updateRowById (headers :: rows) id payload ≠
          Except.error StoreError.schemaError := by
        simp only [updateRowById, hidx]
        cases hfi : findIndexMatch idCol (toStr id) rows <;> simp [hfi]
      have h2 : deleteRowById (headers :: rows) id ≠
          Except.error StoreError.schemaError := by
        simp only [deleteRowById, hidx]
        cases hfi : findIndexMatch idCol (toStr id) rows <;> simp [hfi]
      exact ⟨iff_of_false h1 hrhs, iff_of_false h2 hrhs, fun h => absurd h hrhs⟩

/-- Witness for C7: a header lacking `id` and an empty sheet both yield
`SchemaError`. -/
theorem schema_error_iff_empty_or_no_id_witness :
    updateRowById [[Value.str "name"]] (Value.num 1) [] =
      Except.error StoreError.schemaError ∧
    deleteRowById ([] : List (List Value)) (Value.num 1) =
      Except.error StoreError.schemaError :=
  ⟨(schema_error_iff_empty_or_no_id [[Value.str "name"]] (Value.num 1) []).1.mpr
      (Or.inr (by decide)),
   (schema_error_iff_empty_or_no_id [] (Value.num 1) []).2.1.mpr (Or.inl rfl)⟩

/-- C8: the row-to-record mapper returns an empty sequence (raising no
error) on an empty row set, and `listAll` on a sheet with only a header row
returns an empty sequence of records. -/
theorem empty_rows_give_empty_records :
    rowsToObjects [] = [] ∧ ∀ headerRow : List Value, listAll [headerRow] = [] :=
  ⟨rfl, fun _ => rfl⟩

/-- C9 counterexample: starting from the distinct ids [1, 2], an update
whose payload contains the key `id` duplicates an existing id, so
`updateRowById` does not preserve the uniqueness invariant. -/
theorem update_id_payload_breaks_uniqueness :
    distinctIds [[Value.str "id", Value.str "name"],
      [Value.num 1, Value.str "a"], [Value.num 2, Value.str "b"]] ∧
    updateRowById [[Value.str "id", Value.str "name"],
        [Value.num 1, Value.str "a"], [Value.num 2, Value.str "b"]]
      (Value.num 2) [("id", Value.num 1)] =
      Except.ok [[Value.str "id", Value.str "name"],
        [Value.num 1, Value.str "a"], [Value.num 1, Value.str "b"]] ∧
    ¬ distinctIds [[Value.str "id", Value.str "name"],
      [Value.num 1, Value.str "a"], [Value.num 1, Value.str "b"]] :=
  ⟨by decide, rfl, by decide⟩

/-- C9 (amended): in sequential execution, insert-with-generated-id and
delete-by-id always preserve pairwise-distinct ids, and update-by-id
preserves them whenever its payload does not contain an `id` key.  The
insert part assumes the entity schemas of §6: the first header column is
`id` and header names are distinct strings. -/
theorem ops_preserve_distinct_ids :
    (∀ (headers : List Value) (rows : List (List Value)) (fields : List Value),
      headers.getD 0 Value.undef = Value.str "id" →
      (∀ h ∈ headers, isStr h = true) →
      (headers.map toStr).Nodup →
      distinctIds (headers :: rows) →
      distinctIds (insertRow (headers :: rows) fields)) ∧
    (∀ (sheetData : List (List Value)) (id : Value) (payload : List (String × Value))
        (sheet2 : List (List Value)),
      (∀ kv ∈ payload, kv.1 ≠ "id") →
      updateRowById sheetData id payload = Except.ok sheet2 →
      distinctIds sheetData → distinctIds sheet2) ∧
    (∀ (sheetData : List (List Value)) (id : Value) (sheet2 : List (List Value)),
      deleteRowById sheetData id = Except.ok sheet2 →
      distinctIds sheetData → distinctIds sheet2) := by
  refine ⟨?_, ?_, ?_⟩
  · intro headers rows fields hid0 hstr hnodup hdist
    obtain ⟨h0, t, rfl⟩ : ∃ h0 t, headers = h0 :: t := by
      cases headers with
      | nil => exact absurd hid0 (by simp)
      | cons h0 t => exact ⟨h0, t, rfl⟩
    have hh0 : h0 = Value.str "id" := by simpa using hid0
    subst hh0
    have hidx : indexOfV (Value.str "id") (Value.str "id" :: t) = some 0 := by
      simp [indexOfV]
    show distinctIds ((Value.str "id" :: t) ::
      (rows ++ [Value.num (generatedId ((Value.str "id" :: t) :: rows)) :: fields]))
    unfold distinctIds at hdist ⊢
    simp only [rowIds, hidx] at hdist ⊢
    rw [List.map_append]
    rw [List.nodup_append]
    refine ⟨hdist, List.nodup_singleton _, ?_⟩
    intro a ha hb
    simp only [List.map_cons, List.map_nil, List.mem_singleton, List.getD_cons_zero] at hb
    subst hb
    obtain ⟨r, hr, hfr⟩ := List.mem_map.mp ha
    have hrows : rows ≠ [] := by
      intro h
      subst h
      simp at hr
    have hobj : rowsToObjects ((Value.str "id" :: t) :: rows) ≠ [] := by
      show rows.map (rowToObject (Value.str "id" :: t)) ≠ []
      simpa using hrows
    obtain ⟨m, hgid, hmem, hbound⟩ := generatedId_spec _ hobj
    have hrmem : parseIntOr0 (r.getD 0 Value.undef) ∈
        (rowsToObjects ((Value.str "id" :: t) :: rows)).map
          (fun o => parseIntOr0 (getField o "id")) := by
      show _ ∈ (rows.map (rowToObject (Value.str "id" :: t))).map _
      rw [List.map_map]
      apply List.mem_map.mpr
      refine ⟨r, hr, ?_⟩
      show parseIntOr0 (getField (rowToObject (Value.str "id" :: t) r) "id") = _
      rw [getField_id_cell _ 0 hstr hnodup hidx r]
    have hle := hbound _ hrmem
    have heq : parseIntOr0 (r.getD 0 Value.undef) =
        generatedId ((Value.str "id" :: t) :: rows) := by
      rw [parseIntOr0_congr hfr, parseIntOr0_num]
    omega
  · intro sheetData id payload sheet2 hnoid hok hdist
    unfold distinctIds at hdist ⊢
    rw [updateRowById_rowIds hnoid hok]
    exact hdist
  · intro sheetData id sheet2 hok hdist
    cases sheetData with
    | nil => exact absurd hok (by simp [deleteRowById])
    | cons headers rows =>
      obtain ⟨idCol, i, hidx, hfi, hs⟩ := deleteRowById_ok hok
      subst hs
      unfold distinctIds at hdist ⊢
      simp only [rowIds, hidx] at hdist ⊢
      exact nodup_map_removeAt _ rows i hdist

/-- Witness for the amended C9: one insert, one id-free update, and one
delete on concrete sheets, each preserving distinct ids. -/
theorem ops_preserve_distinct_ids_witness :
    distinctIds (insertRow [[Value.str "id"], [Value.num 1]] [Value.str "x"]) ∧
    distinctIds [[Value.str "id"], [Value.num 4]] ∧
    distinctIds [[Value.str "id"], [Value.num 1]] :=
  ⟨ops_preserve_distinct_ids.1 [Value.str "id"] [[Value.num 1]] [Value.str "x"]
      rfl (by decide) (by decide) (by decide),
   ops_preserve_distinct_ids.2.1 [[Value.str "id"], [Value.num 4]] (Value.num 4) []
      [[Value.str "id"], [Value.num 4]] (by decide) rfl (by decide),
   ops_preserve_distinct_ids.2.2 [[Value.str "id"], [Value.num 1], [Value.num 2]]
      (Value.num 2) [[Value.str "id"], [Value.num 1]] rfl (by decide)⟩

/-- C10: `updateRowById` silently ignores payload keys that do not appear
in the sheet's header row — the result is identical to updating with those
keys filtered out — and an update whose payload holds only an unknown key
still succeeds, leaving the stored row unchanged. -/
theorem unknown_keys_ignored (sheetData : List (List Value)) (id : Value)
    (payload : List (String × Value)) :
    updateRowById sheetData id payload =
      updateRowById sheetData id
        (payload.filter
          (fun kv => (indexOfV (Value.str kv.1) (sheetData.getD 0 [])).isSome)) ∧
    updateRowById [[Value.str "id", Value.str "name"], [Value.num 1, Value.str "a"]]
        (Value.num 1) [("bogus", Value.str "z")] =
      Except.ok [[Value.str "id", Value.str "name"], [Value.num 1, Value.str "a"]] := by
  constructor
  · cases sheetData with
    | nil => rfl
    | cons headers rows =>
      cases hidx : indexOfV (Value.str "id") headers with
      | none => simp only [updateRowById, hidx]
      | some idCol =>
        cases hfi : findIndexMatch idCol (toStr id) rows with
        | none => simp only [updateRowById, hidx, hfi]
        | some i =>
          simp only [updateRowById, hidx, hfi, List.getD_cons_zero]
          rw [← applyFields_filter]
  · rfl

end NutriStore
